import Mathlib

/-!
Shallow embedding of `src/nlpy/krylov/linop.py` (the linear-operator
hierarchy of the nlpy repository) and proofs about it.

Modelling choices, mapped line by line to the source:

* Vectors are `List Int` (`numpy` 1-d arrays of exact entries; the claims
  only need exact arithmetic).  `x.shape != (self.nargin,)` becomes
  `x.length ≠ nargin`.
* Python objects live on an explicit heap: a `List OpState`, the object
  identity of an operator being its index.  `a is b` is index equality.
  Constructors allocate by appending; the mid-`__init__` mutation
  `self.T = ...` is an index update (`setT`).
* Each instance stores its own `__mul__` (the source assigns bound
  callables to `self.__mul__`); this per-instance callable is the
  `MulStrat` field:
  - `notImplemented`    : `LinearOperator.__mul__` (raises);
  - `callback f`        : `SimpleLinearOperator` (`self.__mul__ = matvec`)
                          and `PysparseLinearOperator` delegating to
                          `A.__mul__` / `A.__rmul__`;
  - `fallbackMul A` / `fallbackRmul A` : `PysparseLinearOperator._mul` /
                          `._rmul` (shape check, then `A.matvec` /
                          `A.matvec_transp` fills a fresh output buffer of
                          length `nargout`);
  - `squaredMul aId` / `squaredRmul aId` : `SquaredLinearOperator._mul` /
                          `._rmul` (`self.A.T * (self.A * x)` resp.
                          `self.A * (self.A.T * x)`), holding only the
                          heap index of `self.A` — no product matrix.
* A wrapped matrix (`ll_mat`-like object) is a `PyMatrix`: its shape, the
  optional `__mul__` / `__rmul__` capabilities (duck-typed `hasattr`
  checks become the `hasMul` / `hasRmul` flags), and the in-place
  `matvec(x, y)` / `matvec_transp(x, y)` routines, modelled by the entry
  each writes at index `i` of the output buffer.
* Python exceptions become `Except PyErr`.  `PyErr.shapeMismatch a e`
  carries both numbers interpolated into the source's message
  `'Input has shape (a,) instead of (e,)'`.
* `**kwargs` is an association list of string keys; `kwargs.get(k, d)` is
  `kwGet`.  `self.transposed = kwargs.get('transposed', False)` stores the
  value coerced by Python truthiness (`truthy`), since the source only
  ever uses it as a boolean.
* The recursive constructor calls (a constructor building its own
  transpose with `transpose_of=self`) recurse at most once, since the
  inner call carries a `transpose_of`; the Lean definitions take explicit
  fuel to express this recursion.
* Logging (`log` kwarg, `self.logger`) is I/O-only and is omitted: no
  claim, and no numerical behaviour, depends on it.
-/

/-- Dense exact vector standing for a 1-d numpy array. -/
abbrev Vec : Type := List Int

/-- Python exceptions raised by the embedded code.  `shapeMismatch a e`
is the `ValueError` whose message reports the actual shape `(a,)` and the
expected `(e,)`; `valueError` is the `transpose_of` type error;
`notImplemented` is `NotImplementedError`; `typeError` stands for the
`TypeError` of using `None` as an operator; `outOfFuel` is the artefact of
the fuelled embedding and is never produced with adequate fuel. -/
inductive PyErr : Type
  | notImplemented : PyErr
  | shapeMismatch (actual expected : Nat) : PyErr
  | valueError (msg : String) : PyErr
  | typeError : PyErr
  | outOfFuel : PyErr
deriving DecidableEq

/-- Source text of the `ValueError` message of the `transpose_of`
`isinstance` check, minus the dynamic class name. -/
def transposeOfMsg : String := "kwarg transposed_of must be a LinearOperator."

/-- An external matrix-like object wrapped by `PysparseLinearOperator`:
`shape == (m, n)`, duck-typed `__mul__` / `__rmul__` capabilities, and
in-place `matvec(x, y)` / `matvec_transp(x, y)` routines modelled by the
entry written at each index of the output buffer. -/
structure PyMatrix : Type where
  m : Nat
  n : Nat
  hasMul : Bool
  hasRmul : Bool
  mulFn : Vec → Vec
  rmulFn : Vec → Vec
  matvec : Vec → Nat → Int
  matvec_transp : Vec → Nat → Int

/-- Per-instance `self.__mul__` callable, as assigned by the four
constructors of the source. -/
inductive MulStrat : Type
  | notImplemented : MulStrat
  | callback (f : Vec → Vec) : MulStrat
  | fallbackMul (A : PyMatrix) : MulStrat
  | fallbackRmul (A : PyMatrix) : MulStrat
  | squaredMul (aId : Nat) : MulStrat
  | squaredRmul (aId : Nat) : MulStrat

/-- True exactly for the strategies that apply a single underlying
operator or matrix once (every strategy except the base class's
`notImplemented` and the squared compositions). -/
def MulStrat.isLeaf : MulStrat → Bool
  | .callback _ => true
  | .fallbackMul _ => true
  | .fallbackRmul _ => true
  | _ => false

/-- True exactly for the Forward squared strategy
`SquaredLinearOperator._mul` (the `AᵗA` orientation). -/
def MulStrat.isForward : MulStrat → Bool
  | .squaredMul _ => true
  | _ => false

/-- Attribute record of one operator object.  `T = none` is Python
`self.T = None` (or the attribute never having been set); `T = some j` is
a reference to the object at heap index `j`. -/
structure OpState : Type where
  nargin : Nat
  nargout : Nat
  shape : Nat × Nat
  symmetric : Bool
  transposed : Bool
  T : Option Nat
  mul : MulStrat

/-- Heap of operator objects; the index of an object is its identity. -/
abbrev Heap : Type := List OpState

/-- Values that can be passed as keyword arguments. -/
inductive KwVal : Type
  | bool (b : Bool) : KwVal
  | opRef (i : Nat) : KwVal
  | pyNone : KwVal
  | other (className : String) : KwVal
deriving DecidableEq

/-- Python truthiness of a keyword value (`None` and `False` are falsy;
objects are truthy). -/
def truthy : KwVal → Bool
  | .bool b => b
  | .opRef _ => true
  | .pyNone => false
  | .other _ => true

/-- Keyword-argument dictionary. -/
def Kwargs : Type := List (String × KwVal)

/-- Embedding of `kwargs.get(key, dflt)`. -/
def kwGet (ks : Kwargs) (key : String) (dflt : KwVal) : KwVal :=
  match ks.find? (fun p => p.1 = key) with
  | some p => p.2
  | none => dflt

/-- Heap lookup, `none` on a dangling index. -/
def Heap.look (h : Heap) (i : Nat) : Option OpState := h[i]?

/-- Mutation `obj_i.T = t` on the heap (no-op on a dangling index, which
the constructors never produce). -/
def setT (h : Heap) (i : Nat) (t : Option Nat) : Heap :=
  match h[i]? with
  | some s => h.set i { s with T := t }
  | none => h

/-- Attribute access `obj_i.T` through the heap: `none` when the object
does not exist or its `T` is Python `None`. -/
def transposeOf (h : Heap) (i : Nat) : Option Nat :=
  (h.look i).bind (fun s => s.T)

/-- Embedding of `LinearOperator.__init__(nargin, nargout)`: sets
`nargin`, `nargout`, `shape = (nargout, nargin)` and nothing else; the
base class assigns no `T`, no `symmetric`, no per-instance `__mul__`, so
applying the object hits the raising `LinearOperator.__mul__`. -/
def LinearOperator.init (nargin nargout : Nat) : OpState :=
  { nargin := nargin
    nargout := nargout
    shape := (nargout, nargin)
    symmetric := false
    transposed := false
    T := none
    mul := .notImplemented }

/-- Direct instantiation of the abstract base class `LinearOperator`:
allocates one object whose `__mul__` is the raising base method. -/
def linearOperatorNew (h : Heap) (nargin nargout : Nat) : Heap × Nat :=
  (h ++ [LinearOperator.init nargin nargout], h.length)

/-- Embedding of `SimpleLinearOperator.__init__`.  Allocates `self`,
then follows the source: `self.__mul__ = matvec`; if `symmetric`,
`self.T = self`; else if no `transpose_of` kwarg was given, either build
the transpose operator with swapped dimensions, swapped callbacks and
`transpose_of=self` (the recursive call, hence the fuel) and point
`self.T` at it, or leave `self.T = None` when no `matvec_transp` exists;
else accept the supplied `transpose_of` if it is a `LinearOperator` and
raise `ValueError` otherwise. -/
def simpleInit (fuel : Nat) (h : Heap) (nargin nargout : Nat)
    (matvec : Vec → Vec) (matvec_transp : Option (Vec → Vec))
    (symmetric : Bool) (kwargs : Kwargs) : Except PyErr (Heap × Nat) :=
  match fuel with
  | 0 => .error .outOfFuel
  | fuel + 1 =>
    let transposed := truthy (kwGet kwargs "transposed" (.bool false))
    let transpose_of := kwGet kwargs "transpose_of" .pyNone
    let selfId := h.length
    let s0 : OpState :=
      { nargin := nargin
        nargout := nargout
        shape := (nargout, nargin)
        symmetric := symmetric
        transposed := transposed
        T := none
        mul := .callback matvec }
    let h0 := h ++ [s0]
    if symmetric then
      .ok (setT h0 selfId (some selfId), selfId)
    else
      match transpose_of with
      | .pyNone =>
        match matvec_transp with
        | some mvt =>
          match simpleInit fuel h0 nargout nargin mvt (some matvec) false
              [("transposed", .bool (!transposed)),
               ("transpose_of", .opRef selfId)] with
          | .ok (h1, childId) => .ok (setT h1 selfId (some childId), selfId)
          | .error e => .error e
        | none => .ok (h0, selfId)
      | .opRef b => .ok (setT h0 selfId (some b), selfId)
      | _ => .error (.valueError transposeOfMsg)

/-- Embedding of `PysparseLinearOperator.__init__`.  Reads
`m, n = A.shape`; in the transposed orientation the base init runs with
`(m, n)` and `__mul__` is `A.__rmul__` or the `_rmul` fallback, otherwise
with `(n, m)` and `A.__mul__` or the `_mul` fallback; the transpose link
then mirrors `SimpleLinearOperator`: self for symmetric, a recursively
built operator over the same matrix with flipped orientation and
`transpose_of=self`, or the supplied `transpose_of` after the
`isinstance` check. -/
def pysparseInit (fuel : Nat) (h : Heap) (A : PyMatrix)
    (symmetric : Bool) (kwargs : Kwargs) : Except PyErr (Heap × Nat) :=
  match fuel with
  | 0 => .error .outOfFuel
  | fuel + 1 =>
    let transposed := truthy (kwGet kwargs "transposed" (.bool false))
    let transpose_of := kwGet kwargs "transpose_of" .pyNone
    let selfId := h.length
    let s0 : OpState :=
      if transposed then
        { nargin := A.m
          nargout := A.n
          shape := (A.n, A.m)
          symmetric := symmetric
          transposed := transposed
          T := none
          mul := if A.hasRmul then .callback A.rmulFn else .fallbackRmul A }
      else
        { nargin := A.n
          nargout := A.m
          shape := (A.m, A.n)
          symmetric := symmetric
          transposed := transposed
          T := none
          mul := if A.hasMul then .callback A.mulFn else .fallbackMul A }
    let h0 := h ++ [s0]
    if symmetric then
      .ok (setT h0 selfId (some selfId), selfId)
    else
      match transpose_of with
      | .pyNone =>
        match pysparseInit fuel h0 A false
            [("transposed", .bool (!transposed)),
             ("transpose_of", .opRef selfId)] with
        | .ok (h1, childId) => .ok (setT h1 selfId (some childId), selfId)
        | .error e => .error e
      | .opRef b => .ok (setT h0 selfId (some b), selfId)
      | _ => .error (.valueError transposeOfMsg)

/-- Argument of `SquaredLinearOperator.__init__`: either an existing
`LinearOperator` (a heap reference) or a raw matrix-like object, which
the constructor first wraps. -/
inductive SquaredArg : Type
  | op (i : Nat) : SquaredArg
  | mat (A : PyMatrix) : SquaredArg

/-- Embedding of `SquaredLinearOperator.__init__`.  Reads
`m, n = A.shape`, runs the base init with `(n, m)` — leaving
`nargin = n`, `nargout = m` — wraps a raw matrix argument in a
`PysparseLinearOperator(A, transposed=False)`, sets `symmetric = True`,
then reassigns only `shape` ( `(m, m)` when the `transposed` kwarg is
truthy, `(n, n)` otherwise ) together with the matching `_rmul` / `_mul`
strategy, and finally `self.T = self`. -/
def squaredInit (fuel : Nat) (h : Heap) (A : SquaredArg)
    (kwargs : Kwargs) : Except PyErr (Heap × Nat) :=
  match fuel with
  | 0 => .error .outOfFuel
  | fuel + 1 =>
    let shp? : Option (Nat × Nat) :=
      match A with
      | .op i => (h.look i).map (fun s => s.shape)
      | .mat M => some (M.m, M.n)
    match shp? with
    | none => .error .typeError
    | some (m, n) =>
      let transposed := truthy (kwGet kwargs "transposed" (.bool false))
      let inner : Except PyErr (Heap × Nat) :=
        match A with
        | .op i => .ok (h, i)
        | .mat M => pysparseInit fuel h M false [("transposed", .bool false)]
      match inner with
      | .error e => .error e
      | .ok (h1, aId) =>
        let selfId := h1.length
        let s : OpState :=
          { nargin := n
            nargout := m
            shape := if transposed then (m, m) else (n, n)
            symmetric := true
            transposed := transposed
            T := some selfId
            mul := if transposed then .squaredRmul aId else .squaredMul aId }
        .ok (h1 ++ [s], selfId)

/-- Execution of one per-instance `__mul__` callable on input `x`, with
the applications of other operators on the heap (the squared strategies'
`self.A * ...` and `self.A.T * ...`) performed by `recur`:
base class (`raise NotImplementedError`); `SimpleLinearOperator` /
delegated pysparse (`matvec(x)`, no shape check at this layer);
`PysparseLinearOperator._mul` / `._rmul` (raise the shape-reporting
`ValueError` unless `len(x) == self.nargin`, else fill a fresh buffer
`np.empty(self.nargout)` with `A.matvec` / `A.matvec_transp`);
`SquaredLinearOperator._mul` (`self.A.T * (self.A * x)`) and `._rmul`
(`self.A * (self.A.T * x)`), a `TypeError` when `self.A.T` is `None`. -/
def applyStrat (h : Heap) (recur : Nat → Vec → Except PyErr Vec)
    (nargin nargout : Nat) : MulStrat → Vec → Except PyErr Vec
  | .notImplemented, _ => .error .notImplemented
  | .callback f, x => .ok (f x)
  | .fallbackMul A, x =>
    if x.length = nargin then
      .ok ((List.range nargout).map (A.matvec x))
    else
      .error (.shapeMismatch x.length nargin)
  | .fallbackRmul A, x =>
    if x.length = nargin then
      .ok ((List.range nargout).map (A.matvec_transp x))
    else
      .error (.shapeMismatch x.length nargin)
  | .squaredMul aId, x =>
    match transposeOf h aId with
    | none => .error .typeError
    | some atId =>
      match recur aId x with
      | .error e => .error e
      | .ok y => recur atId y
  | .squaredRmul aId, x =>
    match transposeOf h aId with
    | none => .error .typeError
    | some atId =>
      match recur atId x with
      | .error e => .error e
      | .ok y => recur aId y

/-- Application `op_i * x` (equivalently `op_i(x)`, since
`LinearOperator.__call__` is an alias for `__mul__`): looks the object up
and runs its per-instance `__mul__` (`applyStrat`), recursing through the
heap with explicit fuel for the squared strategies. -/
def applyOp (h : Heap) : Nat → Nat → Vec → Except PyErr Vec
  | 0, _, _ => .error .outOfFuel
  | fuel + 1, i, x =>
    match h.look i with
    | none => .error .typeError
    | some s => applyStrat h (applyOp h fuel) s.nargin s.nargout s.mul x

/-- Copy of `applyStrat` instrumented with a count of leaf applications:
a callback or fallback application counts 1, a squared application adds
the counts of its two sub-applications.  Nothing else changes;
`applyOpC_fst` below proves the instrumented semantics projects to
`applyOp`. -/
def applyStratC (h : Heap) (recur : Nat → Vec → Except PyErr (Vec × Nat))
    (nargin nargout : Nat) : MulStrat → Vec → Except PyErr (Vec × Nat)
  | .notImplemented, _ => .error .notImplemented
  | .callback f, x => .ok (f x, 1)
  | .fallbackMul A, x =>
    if x.length = nargin then
      .ok ((List.range nargout).map (A.matvec x), 1)
    else
      .error (.shapeMismatch x.length nargin)
  | .fallbackRmul A, x =>
    if x.length = nargin then
      .ok ((List.range nargout).map (A.matvec_transp x), 1)
    else
      .error (.shapeMismatch x.length nargin)
  | .squaredMul aId, x =>
    match transposeOf h aId with
    | none => .error .typeError
    | some atId =>
      match recur aId x with
      | .error e => .error e
      | .ok (y, c1) =>
        match recur atId y with
        | .error e => .error e
        | .ok (z, c2) => .ok (z, c1 + c2)
  | .squaredRmul aId, x =>
    match transposeOf h aId with
    | none => .error .typeError
    | some atId =>
      match recur atId x with
      | .error e => .error e
      | .ok (y, c1) =>
        match recur aId y with
        | .error e => .error e
        | .ok (z, c2) => .ok (z, c1 + c2)

/-- Leaf-counting analogue of `applyOp`. -/
def applyOpC (h : Heap) : Nat → Nat → Vec → Except PyErr (Vec × Nat)
  | 0, _, _ => .error .outOfFuel
  | fuel + 1, i, x =>
    match h.look i with
    | none => .error .typeError
    | some s => applyStratC h (applyOpC h fuel) s.nargin s.nargout s.mul x

/-- Embedding of `LinearOperator.__call__`, which the source defines as
an alias for `__mul__`. -/
def callOp (h : Heap) (fuel i : Nat) (x : Vec) : Except PyErr Vec :=
  applyOp h fuel i x

/-- State of the object returned by a constructor (`none` when the
constructor raised). -/
def stateOf (r : Except PyErr (Heap × Nat)) : Option OpState :=
  match r with
  | .ok (h, i) => h.look i
  | .error _ => none

/-- Transpose attribute of the object returned by a constructor:
`some none` means the object exists and its `T` is Python `None`. -/
def transposeAttr (r : Except PyErr (Heap × Nat)) : Option (Option Nat) :=
  (stateOf r).map (fun s => s.T)

/-- Concrete matvec of the spec's 2×3 test matrix
`[[1, 1, 0], [0, 1, 1]]` (maps `[x0, x1, x2]` to `[x0 + x1, x1 + x2]`),
used to instantiate the general theorems. -/
def wMv : Vec → Vec :=
  fun x => [x.headI + x.tail.headI, x.tail.headI + x.tail.tail.headI]

/-- Concrete transposed matvec of the same 2×3 matrix
(maps `[y0, y1]` to `[y0, y0 + y1, y1]`). -/
def wMvT : Vec → Vec :=
  fun y => [y.headI, y.headI + y.tail.headI, y.tail.headI]

/-- The 2×3 test matrix as a wrapped matrix-like object exposing
`__mul__` and `__rmul__`. -/
def wMat23 : PyMatrix :=
  { m := 2
    n := 3
    hasMul := true
    hasRmul := true
    mulFn := wMv
    rmulFn := wMvT
    matvec := fun x i => (wMv x).getD i 0
    matvec_transp := fun y i => (wMvT y).getD i 0 }

/-- The same 2×3 object without `__mul__` / `__rmul__`, forcing the
fallback `_mul` / `_rmul` paths of `PysparseLinearOperator`. -/
def wMat23F : PyMatrix :=
  { m := 2
    n := 3
    hasMul := false
    hasRmul := false
    mulFn := wMv
    rmulFn := wMvT
    matvec := fun x i => (wMv x).getD i 0
    matvec_transp := fun y i => (wMvT y).getD i 0 }

/-- A standalone operator object of shape `(2, 3)` used as a concrete
pre-existing heap entry. -/
def wOpSt23 : OpState :=
  { nargin := 3
    nargout := 2
    shape := (2, 3)
    symmetric := false
    transposed := false
    T := some 1
    mul := .callback wMv }

/-- The transpose partner of `wOpSt23`, of shape `(3, 2)`. -/
def wOpSt32 : OpState :=
  { nargin := 2
    nargout := 3
    shape := (3, 2)
    symmetric := false
    transposed := true
    T := some 0
    mul := .callback wMvT }

/-- A `SquaredLinearOperator` state over the pair
`wOpSt23` / `wOpSt32` in Forward (`AᵗA`) orientation. -/
def wSqSt : OpState :=
  { nargin := 3
    nargout := 2
    shape := (3, 3)
    symmetric := true
    transposed := false
    T := some 2
    mul := .squaredMul 0 }

/-- Concrete heap holding the operator `wOpSt23` at index 0, its
transpose at index 1 and the squared operator over them at index 2. -/
def wHeap : Heap := [wOpSt23, wOpSt32, wSqSt]

/-- An operator state using the fallback `_mul` path over `wMat23F`. -/
def wFbSt : OpState :=
  { nargin := 3
    nargout := 2
    shape := (2, 3)
    symmetric := false
    transposed := false
    T := none
    mul := .fallbackMul wMat23F }

/-- Singleton heap holding the fallback operator `wFbSt`. -/
def wHeapFb : Heap := [wFbSt]

theorem applyStratC_fst (h : Heap) (recurC : Nat → Vec → Except PyErr (Vec × Nat))
    (recur : Nat → Vec → Except PyErr Vec)
    (hrec : ∀ j y, (recurC j y).map Prod.fst = recur j y)
    (nargin nargout : Nat) (m : MulStrat) (x : Vec) :
    (applyStratC h recurC nargin nargout m x).map Prod.fst =
      applyStrat h recur nargin nargout m x := by
  cases m with
  | notImplemented => rfl
  | callback f => rfl
  | fallbackMul A =>
    rw [applyStratC, applyStrat]
    split <;> rfl
  | fallbackRmul A =>
    rw [applyStratC, applyStrat]
    split <;> rfl
  | squaredMul aId =>
    rw [applyStratC, applyStrat]
    cases transposeOf h aId with
    | none => rfl
    | some atId =>
      show Except.map Prod.fst
          (match recurC aId x with
           | .error e => .error e
           | .ok (y, c1) =>
             match recurC atId y with
             | .error e => .error e
             | .ok (z, c2) => .ok (z, c1 + c2)) =
        (match recur aId x with
         | .error e => .error e
         | .ok y => recur atId y)
      rw [← hrec aId x]
      cases recurC aId x with
      | error e => rfl
      | ok yc =>
        obtain ⟨y, c1⟩ := yc
        show Except.map Prod.fst
            (match recurC atId y with
             | .error e => .error e
             | .ok (z, c2) => .ok (z, c1 + c2)) = recur atId y
        rw [← hrec atId y]
        cases recurC atId y with
        | error e => rfl
        | ok zc => obtain ⟨z, c2⟩ := zc; rfl
  | squaredRmul aId =>
    rw [applyStratC, applyStrat]
    cases transposeOf h aId with
    | none => rfl
    | some atId =>
      show Except.map Prod.fst
          (match recurC atId x with
           | .error e => .error e
           | .ok (y, c1) =>
             match recurC aId y with
             | .error e => .error e
             | .ok (z, c2) => .ok (z, c1 + c2)) =
        (match recur atId x with
         | .error e => .error e
         | .ok y => recur aId y)
      rw [← hrec atId x]
      cases recurC atId x with
      | error e => rfl
      | ok yc =>
        obtain ⟨y, c1⟩ := yc
        show Except.map Prod.fst
            (match recurC aId y with
             | .error e => .error e
             | .ok (z, c2) => .ok (z, c1 + c2)) = recur aId y
        rw [← hrec aId y]
        cases recurC aId y with
        | error e => rfl
        | ok zc => obtain ⟨z, c2⟩ := zc; rfl

theorem applyOpC_fst (h : Heap) :
    ∀ fuel i x, (applyOpC h fuel i x).map Prod.fst = applyOp h fuel i x := by
  intro fuel
  induction fuel with
  | zero => intro i x; rfl
  | succ fuel ih =>
    intro i x
    rw [applyOpC, applyOp]
    cases h.look i with
    | none => rfl
    | some s => exact applyStratC_fst h _ _ (fun j y => ih j y) _ _ _ _

theorem look_append_self (h : Heap) (s : OpState) :
    (h ++ [s]).look h.length = some s := by
  simp [Heap.look]

theorem look_append_lt (h : Heap) (s : OpState) (i : Nat) (hi : i < h.length) :
    (h ++ [s]).look i = h.look i := by
  simp [Heap.look, List.getElem?_append, hi]

theorem length_setT (h : Heap) (i : Nat) (t : Option Nat) :
    (setT h i t).length = h.length := by
  unfold setT
  cases h[i]? <;> simp

theorem look_setT_self (h : Heap) (i : Nat) (t : Option Nat) (s : OpState)
    (hs : h.look i = some s) :
    (setT h i t).look i = some { s with T := t } := by
  unfold setT
  rw [show h[i]? = h.look i from rfl, hs]
  have hi : i < h.length := by
    by_contra hc
    rw [Heap.look, List.getElem?_eq_none (Nat.le_of_not_lt hc)] at hs
    exact Option.noConfusion hs
  simp [Heap.look, List.getElem?_set_eq_of_lt _ hi]

theorem look_setT_ne (h : Heap) (i j : Nat) (t : Option Nat) (hij : i ≠ j) :
    (setT h i t).look j = h.look j := by
  unfold setT
  cases h[i]? with
  | none => rfl
  | some s => simp [Heap.look, List.getElem?_set_ne hij]

theorem kwGet_pair_transposed (i : Nat) (b : Bool) :
    kwGet [("transposed", .bool b), ("transpose_of", .opRef i)]
      "transposed" (.bool false) = .bool b := rfl

theorem kwGet_pair_transpose_of (i : Nat) (b : Bool) :
    kwGet [("transposed", .bool b), ("transpose_of", .opRef i)]
      "transpose_of" .pyNone = .opRef i := rfl

theorem transpose_pair_involution (h : Heap) (s0 s0c : OpState) :
    (transposeOf
        (setT (setT ((h ++ [s0]) ++ [s0c]) (h ++ [s0]).length (some h.length))
          h.length (some (h ++ [s0]).length))
        h.length).bind
      (transposeOf
        (setT (setT ((h ++ [s0]) ++ [s0c]) (h ++ [s0]).length (some h.length))
          h.length (some (h ++ [s0]).length))) = some h.length := by
  have hab : h.length ≠ (h ++ [s0]).length := by simp
  have hba : (h ++ [s0]).length ≠ h.length := by simp
  have hlb : ((h ++ [s0]) ++ [s0c]).look (h ++ [s0]).length = some s0c :=
    look_append_self _ _
  have hla : ((h ++ [s0]) ++ [s0c]).look h.length = some s0 := by
    rw [look_append_lt _ _ _ (by simp), look_append_self]
  have h1b : (setT ((h ++ [s0]) ++ [s0c]) (h ++ [s0]).length (some h.length)).look
      (h ++ [s0]).length = some { s0c with T := some h.length } :=
    look_setT_self _ _ _ _ hlb
  have h1a : (setT ((h ++ [s0]) ++ [s0c]) (h ++ [s0]).length (some h.length)).look
      h.length = some s0 := by
    rw [look_setT_ne _ _ _ _ hba]; exact hla
  have hHa : (setT (setT ((h ++ [s0]) ++ [s0c]) (h ++ [s0]).length (some h.length))
      h.length (some (h ++ [s0]).length)).look h.length =
      some { s0 with T := some (h ++ [s0]).length } :=
    look_setT_self _ _ _ _ h1a
  have hHb : (setT (setT ((h ++ [s0]) ++ [s0c]) (h ++ [s0]).length (some h.length))
      h.length (some (h ++ [s0]).length)).look (h ++ [s0]).length =
      some { s0c with T := some h.length } := by
    rw [look_setT_ne _ _ _ _ hab]; exact h1b
  rw [transposeOf, hHa]
  show (transposeOf _ (h ++ [s0]).length) = some h.length
  rw [transposeOf, hHb]
  rfl

/-- C1.  A `SimpleLinearOperator` constructed non-symmetric with a
`matvec_transp` function, and a `PysparseLinearOperator` constructed
non-symmetric without an explicit `transpose_of`, both succeed and
satisfy `A.T.T is A`: following the transpose attribute twice through the
heap returns the very index the constructor returned, i.e. the same
object identity, for any starting heap, dimensions, callbacks, wrapped
matrix and remaining keyword arguments. -/
theorem C1_transpose_transpose_is_self (fuel : Nat) (h : Heap)
    (nargin nargout : Nat) (mv mvt : Vec → Vec) (M : PyMatrix)
    (kwargs : Kwargs)
    (hk : kwGet kwargs "transpose_of" .pyNone = .pyNone) :
    (match simpleInit (fuel + 2) h nargin nargout mv (some mvt) false kwargs with
     | .ok (h2, a) => (transposeOf h2 a).bind (transposeOf h2) = some a
     | .error _ => False) ∧
    (match pysparseInit (fuel + 2) h M false kwargs with
     | .ok (h2, a) => (transposeOf h2 a).bind (transposeOf h2) = some a
     | .error _ => False) := by
  constructor
  · rw [simpleInit]
    simp only [hk]
    rw [simpleInit]
    simp only [kwGet_pair_transposed, kwGet_pair_transpose_of]
    exact transpose_pair_involution h _ _
  · rw [pysparseInit]
    simp only [hk]
    rw [pysparseInit]
    simp only [kwGet_pair_transposed, kwGet_pair_transpose_of]
    exact transpose_pair_involution h _ _

/-- Witness for C1 at the concrete 2×3 test matrix, empty heap and empty
kwargs. -/
theorem C1_witness :
    kwGet [] "transpose_of" .pyNone = .pyNone ∧
    ((match simpleInit 2 [] 3 2 wMv (some wMvT) false [] with
      | .ok (h2, a) => (transposeOf h2 a).bind (transposeOf h2) = some a
      | .error _ => False) ∧
     (match pysparseInit 2 [] wMat23 false [] with
      | .ok (h2, a) => (transposeOf h2 a).bind (transposeOf h2) = some a
      | .error _ => False)) :=
  ⟨rfl, C1_transpose_transpose_is_self 0 [] 3 2 wMv wMvT wMat23 [] rfl⟩

/-- C2 fails on the code: `SquaredLinearOperator.__init__` runs the base
init with `(n, m)` and then reassigns only `shape`, leaving `nargin` and
`nargout` stale.  Evaluating the constructor on the concrete 2×3 base
(`m = 2`, `n = 3`): the Forward operator ends with `shape = (3, 3)` but
`(nargout, nargin) = (2, 3)`, and the Transposed one with
`shape = (2, 2)` against the same `(nargout, nargin) = (2, 3)` — in both
cases `shape ≠ (nargout, nargin)`, violating the claimed invariant. -/
theorem C2_squared_shape_decouples :
    (stateOf (squaredInit 3 [] (.mat wMat23) [])).map
        (fun s => (s.shape, (s.nargout, s.nargin),
          decide (s.shape = (s.nargout, s.nargin)))) =
      some ((3, 3), (2, 3), false) ∧
    (stateOf (squaredInit 3 [] (.mat wMat23) [("transposed", .bool true)])).map
        (fun s => (s.shape, (s.nargout, s.nargin),
          decide (s.shape = (s.nargout, s.nargin)))) =
      some ((2, 2), (2, 3), false) := ⟨rfl, rfl⟩

/-- C7, counterexample.  A `SimpleLinearOperator` built non-symmetric
with no `matvec_transp` and no `transpose_of` constructs successfully
(`transposeAttr` returns `some _`, so no error was raised) and its
transpose attribute holds the silent default `None` (`some none`): the
source executes `self.T = None`, so querying `A.T` returns `None` rather
than signalling a `NoTransposeAvailable` condition, contrary to the
claim. -/
theorem C7_counterexample :
    transposeAttr (simpleInit 1 [] 3 2 wMv none false []) = some none := rfl

/-- C7, amended.  For every `SimpleLinearOperator` constructed
non-symmetric with no `matvec_transp` and no `transpose_of`,
construction succeeds, the object exists on the heap, and its transpose
attribute is Python `None`: the query yields this silent default and no
error is signalled at query time. -/
theorem C7_no_transpose_is_none (fuel : Nat) (h : Heap)
    (nargin nargout : Nat) (mv : Vec → Vec) (kwargs : Kwargs)
    (hk : kwGet kwargs "transpose_of" .pyNone = .pyNone) :
    (match simpleInit (fuel + 1) h nargin nargout mv none false kwargs with
     | .ok (h2, a) => h2.look a ≠ none ∧ transposeOf h2 a = none
     | .error _ => False) := by
  rw [simpleInit]
  simp only [hk]
  exact ⟨by rw [look_append_self]; exact fun hc => Option.noConfusion hc,
    by rw [transposeOf, look_append_self]; rfl⟩

/-- Witness for the amended C7 at concrete inputs. -/
theorem C7_witness :
    kwGet [] "transpose_of" .pyNone = .pyNone ∧
    (match simpleInit 1 [] 3 2 wMv none false [] with
     | .ok (h2, a) => h2.look a ≠ none ∧ transposeOf h2 a = none
     | .error _ => False) :=
  ⟨rfl, C7_no_transpose_is_none 0 [] 3 2 wMv [] rfl⟩

/-- C8.  Applying (or calling, `__call__` being an alias of `__mul__`) a
directly instantiated abstract base `LinearOperator`, on any input and
any heap, raises `NotImplementedError`: the base class carries no
concrete multiplication behaviour. -/
theorem C8_base_mul_raises (h : Heap) (nargin nargout fuel : Nat) (x : Vec) :
    applyOp (linearOperatorNew h nargin nargout).1 (fuel + 1)
        (linearOperatorNew h nargin nargout).2 x = .error .notImplemented ∧
    callOp (linearOperatorNew h nargin nargout).1 (fuel + 1)
        (linearOperatorNew h nargin nargout).2 x = .error .notImplemented := by
  have hl : (linearOperatorNew h nargin nargout).1.look
      (linearOperatorNew h nargin nargout).2 =
      some (LinearOperator.init nargin nargout) := look_append_self h _
  constructor
  · rw [applyOp, hl]
    rfl
  · rw [callOp, applyOp, hl]
    rfl

theorem transposeOf_setT_self_alloc (h : Heap) (s0 : OpState) :
    transposeOf (setT (h ++ [s0]) h.length (some h.length)) h.length =
      some h.length := by
  rw [transposeOf, look_setT_self _ _ _ _ (look_append_self h s0)]
  rfl

theorem transposeOf_append_self (h : Heap) (ni no : Nat) (shp : Nat × Nat)
    (sym tr : Bool) (m : MulStrat) :
    transposeOf (h ++ [⟨ni, no, shp, sym, tr, some h.length, m⟩]) h.length =
      some h.length := by
  rw [transposeOf, look_append_self]
  rfl

/-- C3.  Every operator constructed symmetric has itself as transpose:
a `SimpleLinearOperator` with `symmetric=True`, a
`PysparseLinearOperator` with `symmetric=True`, and a
`SquaredLinearOperator` (always symmetric) over an existing operator or
over a raw matrix, all end with their transpose attribute referencing
their own heap index. -/
theorem C3_symmetric_transpose_is_self (fuel : Nat) (h : Heap)
    (nargin nargout : Nat) (mv : Vec → Vec) (mvt : Option (Vec → Vec))
    (M : PyMatrix) (kwargs : Kwargs) (aId : Nat) (a : OpState)
    (hlook : h.look aId = some a) :
    (match simpleInit (fuel + 1) h nargin nargout mv mvt true kwargs with
     | .ok (h2, i) => transposeOf h2 i = some i
     | .error _ => False) ∧
    (match pysparseInit (fuel + 1) h M true kwargs with
     | .ok (h2, i) => transposeOf h2 i = some i
     | .error _ => False) ∧
    (match squaredInit (fuel + 1) h (.op aId) kwargs with
     | .ok (h2, i) => transposeOf h2 i = some i
     | .error _ => False) ∧
    (match squaredInit (fuel + 3) h (.mat M) kwargs with
     | .ok (h2, i) => transposeOf h2 i = some i
     | .error _ => False) := by
  refine ⟨?_, ?_, ?_, ?_⟩
  · rw [simpleInit.eq_def]
    exact transposeOf_setT_self_alloc h _
  · rw [pysparseInit]
    exact transposeOf_setT_self_alloc h _
  · rw [squaredInit]
    simp only [hlook]
    exact transposeOf_append_self _ _ _ _ _ _ _
  · rw [squaredInit]
    exact transposeOf_append_self _ _ _ _ _ _ _

/-- Witness for C3 at concrete inputs (heap `wHeap`, operator index 0,
the 2×3 matrix, empty kwargs). -/
theorem C3_witness :
    wHeap.look 0 = some wOpSt23 ∧
    ((match simpleInit 1 wHeap 3 2 wMv none true [] with
      | .ok (h2, i) => transposeOf h2 i = some i
      | .error _ => False) ∧
     (match pysparseInit 1 wHeap wMat23 true [] with
      | .ok (h2, i) => transposeOf h2 i = some i
      | .error _ => False) ∧
     (match squaredInit 1 wHeap (.op 0) [] with
      | .ok (h2, i) => transposeOf h2 i = some i
      | .error _ => False) ∧
     (match squaredInit 3 wHeap (.mat wMat23) [] with
      | .ok (h2, i) => transposeOf h2 i = some i
      | .error _ => False)) :=
  ⟨rfl, C3_symmetric_transpose_is_self 0 wHeap 3 2 wMv none wMat23 [] 0 wOpSt23 rfl⟩

theorem supplied_transpose_frame (h : Heap) (s0 : OpState) (b : Nat)
    (hb : b < h.length) :
    transposeOf (setT (h ++ [s0]) h.length (some b)) h.length = some b ∧
    (setT (h ++ [s0]) h.length (some b)).look b = h.look b ∧ b ≠ h.length := by
  refine ⟨?_, ?_, Nat.ne_of_lt hb⟩
  · rw [transposeOf, look_setT_self _ _ _ _ (look_append_self h s0)]
    rfl
  · rw [look_setT_ne _ _ _ _ (Nat.ne_of_gt hb), look_append_lt _ _ _ hb]

/-- C10.  Constructing a `SimpleLinearOperator` or
`PysparseLinearOperator` non-symmetric with a caller-supplied
`transpose_of` operator `B` (a `LinearOperator` living at heap index
`b`) sets the new operator's transpose attribute to `B`, leaves `B`'s
own heap state — in particular `B`'s transpose attribute — completely
unchanged, and produces a new object distinct from `B`: the mutual
back-link is established only for internally built transpose pairs. -/
theorem C10_supplied_transpose_no_backlink (fuel : Nat) (h : Heap)
    (nargin nargout : Nat) (mv : Vec → Vec) (mvt : Option (Vec → Vec))
    (M : PyMatrix) (kwargs : Kwargs) (b : Nat)
    (hk : kwGet kwargs "transpose_of" .pyNone = .opRef b)
    (hb : b < h.length) :
    (match simpleInit (fuel + 1) h nargin nargout mv mvt false kwargs with
     | .ok (h2, a) => transposeOf h2 a = some b ∧ h2.look b = h.look b ∧ b ≠ a
     | .error _ => False) ∧
    (match pysparseInit (fuel + 1) h M false kwargs with
     | .ok (h2, a) => transposeOf h2 a = some b ∧ h2.look b = h.look b ∧ b ≠ a
     | .error _ => False) := by
  constructor
  · rw [simpleInit.eq_def]
    simp only [hk]
    exact supplied_transpose_frame h _ b hb
  · rw [pysparseInit]
    simp only [hk]
    exact supplied_transpose_frame h _ b hb

/-- Witness for C10: heap `wHeap`, supplied transpose at index 0. -/
theorem C10_witness :
    kwGet [("transpose_of", .opRef 0)] "transpose_of" .pyNone = .opRef 0 ∧
    (0 : Nat) < wHeap.length ∧
    ((match simpleInit 1 wHeap 3 2 wMv none false [("transpose_of", .opRef 0)] with
      | .ok (h2, a) =>
        transposeOf h2 a = some 0 ∧ h2.look 0 = wHeap.look 0 ∧ 0 ≠ a
      | .error _ => False) ∧
     (match pysparseInit 1 wHeap wMat23 false [("transpose_of", .opRef 0)] with
      | .ok (h2, a) =>
        transposeOf h2 a = some 0 ∧ h2.look 0 = wHeap.look 0 ∧ 0 ≠ a
      | .error _ => False)) :=
  ⟨rfl, by decide,
    C10_supplied_transpose_no_backlink 0 wHeap 3 2 wMv none wMat23
      [("transpose_of", .opRef 0)] 0 rfl (by decide)⟩

theorem stateOf_alloc_shape (h1 : Heap) (ni no : Nat) (shp : Nat × Nat)
    (sym tr : Bool) (t : Option Nat) (m : MulStrat) :
    (stateOf (.ok (h1 ++ [⟨ni, no, shp, sym, tr, t, m⟩], h1.length))).map
      (fun s => s.shape) = some shp := by
  rw [stateOf, look_append_self]
  rfl

/-- C5.  A `SquaredLinearOperator` over a base of shape `(m, n)` — an
existing operator on the heap or a raw matrix — gets shape `(n, n)` when
the `transposed` kwarg is falsy (Forward, `AᵗA`) and `(m, m)` when it is
truthy (`AAᵗ`). -/
theorem C5_squared_shape (fuel : Nat) (h : Heap) (M : PyMatrix)
    (kwargs : Kwargs) (aId m n : Nat) (a : OpState)
    (hlook : h.look aId = some a) (hshape : a.shape = (m, n)) :
    (truthy (kwGet kwargs "transposed" (.bool false)) = false →
      (stateOf (squaredInit (fuel + 1) h (.op aId) kwargs)).map
        (fun s => s.shape) = some (n, n)) ∧
    (truthy (kwGet kwargs "transposed" (.bool false)) = true →
      (stateOf (squaredInit (fuel + 1) h (.op aId) kwargs)).map
        (fun s => s.shape) = some (m, m)) ∧
    (truthy (kwGet kwargs "transposed" (.bool false)) = false →
      (stateOf (squaredInit (fuel + 3) h (.mat M) kwargs)).map
        (fun s => s.shape) = some (M.n, M.n)) ∧
    (truthy (kwGet kwargs "transposed" (.bool false)) = true →
      (stateOf (squaredInit (fuel + 3) h (.mat M) kwargs)).map
        (fun s => s.shape) = some (M.m, M.m)) := by
  refine ⟨fun htr => ?_, fun htr => ?_, fun htr => ?_, fun htr => ?_⟩ <;>
    rw [squaredInit] <;>
    simp only [hlook, Option.map_some', hshape, htr] <;>
    exact stateOf_alloc_shape _ _ _ _ _ _ _ _

/-- Witness for C5 at the concrete heap `wHeap` (base of shape `(2, 3)`
at index 0), the concrete 2×3 matrix and empty kwargs. -/
theorem C5_witness :
    wHeap.look 0 = some wOpSt23 ∧ wOpSt23.shape = (2, 3) ∧
    ((truthy (kwGet [] "transposed" (.bool false)) = false →
       (stateOf (squaredInit 1 wHeap (.op 0) [])).map
         (fun s => s.shape) = some (3, 3)) ∧
     (truthy (kwGet [] "transposed" (.bool false)) = true →
       (stateOf (squaredInit 1 wHeap (.op 0) [])).map
         (fun s => s.shape) = some (2, 2)) ∧
     (truthy (kwGet [] "transposed" (.bool false)) = false →
       (stateOf (squaredInit 3 wHeap (.mat wMat23) [])).map
         (fun s => s.shape) = some (wMat23.n, wMat23.n)) ∧
     (truthy (kwGet [] "transposed" (.bool false)) = true →
       (stateOf (squaredInit 3 wHeap (.mat wMat23) [])).map
         (fun s => s.shape) = some (wMat23.m, wMat23.m))) :=
  ⟨rfl, rfl, C5_squared_shape 0 wHeap wMat23 [] 0 2 3 wOpSt23 rfl rfl⟩

theorem stateOf_alloc_flags (h1 : Heap) (ni no : Nat) (shp : Nat × Nat)
    (sym tr : Bool) (t : Option Nat) (m : MulStrat) :
    (stateOf (.ok (h1 ++ [⟨ni, no, shp, sym, tr, t, m⟩], h1.length))).map
      (fun s => (s.transposed, s.mul.isForward)) = some (tr, m.isForward) := by
  rw [stateOf, look_append_self]
  rfl

/-- C9.  The orientation of a `SquaredLinearOperator` is read only from
the kwarg named `transposed` (two kwarg dictionaries agreeing on that
key produce identical constructions), so the example driver's call with
the kwarg `transpose=True` leaves the `transposed` flag `False` and
builds the Forward (`AᵗA`) operator, for an operator base and for a raw
matrix base alike. -/
theorem C9_transposed_kwarg_only (fuel : Nat) (h : Heap) (A : SquaredArg)
    (ks1 ks2 : Kwargs) (aId : Nat) (a : OpState) (M : PyMatrix)
    (hk : kwGet ks1 "transposed" (.bool false) =
      kwGet ks2 "transposed" (.bool false))
    (hlook : h.look aId = some a) :
    squaredInit fuel h A ks1 = squaredInit fuel h A ks2 ∧
    ((stateOf (squaredInit (fuel + 1) h (.op aId) [("transpose", .bool true)])).map
        (fun s => (s.transposed, s.mul.isForward)) = some (false, true)) ∧
    ((stateOf (squaredInit (fuel + 3) h (.mat M) [("transpose", .bool true)])).map
        (fun s => (s.transposed, s.mul.isForward)) = some (false, true)) := by
  refine ⟨?_, ?_, ?_⟩
  · simp only [squaredInit.eq_def]
    rw [hk]
  · rw [squaredInit]
    simp only [hlook, Option.map_some']
    exact stateOf_alloc_flags _ _ _ _ _ _ _ _
  · rw [squaredInit]
    exact stateOf_alloc_flags _ _ _ _ _ _ _ _

/-- Witness for C9: two kwarg lists agreeing on `transposed` (one of
them the driver-style `transpose=True` list) and the concrete heap. -/
theorem C9_witness :
    kwGet [("transpose", .bool true)] "transposed" (.bool false) =
      kwGet [] "transposed" (.bool false) ∧
    wHeap.look 0 = some wOpSt23 ∧
    (squaredInit 0 wHeap (.op 0) [("transpose", .bool true)] =
      squaredInit 0 wHeap (.op 0) [] ∧
     ((stateOf (squaredInit 1 wHeap (.op 0) [("transpose", .bool true)])).map
        (fun s => (s.transposed, s.mul.isForward)) = some (false, true)) ∧
     ((stateOf (squaredInit 3 wHeap (.mat wMat23) [("transpose", .bool true)])).map
        (fun s => (s.transposed, s.mul.isForward)) = some (false, true))) :=
  ⟨rfl, rfl, C9_transposed_kwarg_only 0 wHeap (.op 0) [("transpose", .bool true)]
    [] 0 wOpSt23 wMat23 rfl rfl⟩

theorem look_pair_self (h : Heap) (s0 s0c : OpState) :
    (setT (setT ((h ++ [s0]) ++ [s0c]) (h ++ [s0]).length (some h.length))
      h.length (some (h ++ [s0]).length)).look h.length =
      some { s0 with T := some (h ++ [s0]).length } := by
  have h1a : (setT ((h ++ [s0]) ++ [s0c]) (h ++ [s0]).length (some h.length)).look
      h.length = some s0 := by
    rw [look_setT_ne _ _ _ _ (by simp), look_append_lt _ _ _ (by simp),
      look_append_self]
  exact look_setT_self _ _ _ _ h1a

theorem stateOf_pair (h : Heap) (s0 s0c : OpState) :
    stateOf (.ok (setT (setT ((h ++ [s0]) ++ [s0c]) (h ++ [s0]).length
        (some h.length)) h.length (some ((h ++ [s0]).length)), h.length)) =
      some { s0 with T := some (h ++ [s0]).length } := by
  rw [stateOf]
  exact look_pair_self h s0 s0c

theorem ite_shape_spec (ni no : Nat) (x w : Vec) (hw : w.length = no) :
    ((if x.length = ni then (.ok w : Except PyErr Vec)
      else .error (.shapeMismatch x.length ni)) =
        .error (.shapeMismatch x.length ni) ↔ x.length ≠ ni) ∧
    (x.length = ni → ∃ v,
      (if x.length = ni then (.ok w : Except PyErr Vec)
       else .error (.shapeMismatch x.length ni)) = .ok v ∧ v.length = no) := by
  constructor
  · constructor
    · intro he hx
      rw [if_pos hx] at he
      exact Except.noConfusion he
    · intro hne
      rw [if_neg hne]
  · intro hx
    exact ⟨w, by rw [if_pos hx], hw⟩

/-- C6.  The fallback application paths of `PysparseLinearOperator`:
when the wrapped matrix lacks `__mul__` (Forward) or `__rmul__`
(Transposed) the constructor installs the `_mul` / `_rmul` fallback with
`nargin` and `nargout` derived from the matrix shape; applying a
fallback raises the `ValueError` carrying the input's actual shape and
the expected dimension exactly when the input length differs from the
operator's `nargin`, and otherwise fills and returns a vector of length
`nargout`. -/
theorem C6_fallback_shape_check (fuel : Nat) (h : Heap) (M : PyMatrix)
    (kwargs : Kwargs) (i : Nat) (s : OpState) (A : PyMatrix) (x : Vec)
    (hk : kwGet kwargs "transpose_of" .pyNone = .pyNone)
    (hs : h.look i = some s) :
    (truthy (kwGet kwargs "transposed" (.bool false)) = false →
      M.hasMul = false →
      ∃ s2, stateOf (pysparseInit (fuel + 2) h M false kwargs) = some s2 ∧
        s2.mul = .fallbackMul M ∧ s2.nargin = M.n ∧ s2.nargout = M.m) ∧
    (truthy (kwGet kwargs "transposed" (.bool false)) = true →
      M.hasRmul = false →
      ∃ s2, stateOf (pysparseInit (fuel + 2) h M false kwargs) = some s2 ∧
        s2.mul = .fallbackRmul M ∧ s2.nargin = M.m ∧ s2.nargout = M.n) ∧
    (s.mul = .fallbackMul A →
      ((applyOp h (fuel + 1) i x = .error (.shapeMismatch x.length s.nargin) ↔
          x.length ≠ s.nargin) ∧
       (x.length = s.nargin → ∃ v,
          applyOp h (fuel + 1) i x = .ok v ∧ v.length = s.nargout))) ∧
    (s.mul = .fallbackRmul A →
      ((applyOp h (fuel + 1) i x = .error (.shapeMismatch x.length s.nargin) ↔
          x.length ≠ s.nargin) ∧
       (x.length = s.nargin → ∃ v,
          applyOp h (fuel + 1) i x = .ok v ∧ v.length = s.nargout))) := by
  refine ⟨fun htr hcap => ?_, fun htr hcap => ?_, fun hmul => ?_, fun hmul => ?_⟩
  · rw [pysparseInit]
    simp only [hk, htr, hcap]
    exact ⟨_, stateOf_pair h _ _, rfl, rfl, rfl⟩
  · rw [pysparseInit]
    simp only [hk, htr, hcap]
    exact ⟨_, stateOf_pair h _ _, rfl, rfl, rfl⟩
  · rw [applyOp]
    simp only [hs, hmul]
    rw [applyStrat]
    exact ite_shape_spec s.nargin s.nargout x _ (by simp)
  · rw [applyOp]
    simp only [hs, hmul]
    rw [applyStrat]
    exact ite_shape_spec s.nargin s.nargout x _ (by simp)

/-- Witness for C6: the capability-free 2×3 matrix `wMat23F`, the
singleton heap `wHeapFb` holding a fallback operator, and a length-4
input vector. -/
theorem C6_witness :
    kwGet [] "transpose_of" .pyNone = .pyNone ∧
    wHeapFb.look 0 = some wFbSt ∧
    ((truthy (kwGet [] "transposed" (.bool false)) = false →
       wMat23F.hasMul = false →
       ∃ s2, stateOf (pysparseInit 2 wHeapFb wMat23F false []) = some s2 ∧
         s2.mul = .fallbackMul wMat23F ∧ s2.nargin = wMat23F.n ∧
         s2.nargout = wMat23F.m) ∧
     (truthy (kwGet [] "transposed" (.bool false)) = true →
       wMat23F.hasRmul = false →
       ∃ s2, stateOf (pysparseInit 2 wHeapFb wMat23F false []) = some s2 ∧
         s2.mul = .fallbackRmul wMat23F ∧ s2.nargin = wMat23F.m ∧
         s2.nargout = wMat23F.n) ∧
     (wFbSt.mul = .fallbackMul wMat23F →
       ((applyOp wHeapFb 1 0 [1, 0, 0, 0] =
           .error (.shapeMismatch (List.length ([1, 0, 0, 0] : Vec)) wFbSt.nargin) ↔
          List.length ([1, 0, 0, 0] : Vec) ≠ wFbSt.nargin) ∧
        (List.length ([1, 0, 0, 0] : Vec) = wFbSt.nargin → ∃ v,
          applyOp wHeapFb 1 0 [1, 0, 0, 0] = .ok v ∧ v.length = wFbSt.nargout))) ∧
     (wFbSt.mul = .fallbackRmul wMat23F →
       ((applyOp wHeapFb 1 0 [1, 0, 0, 0] =
           .error (.shapeMismatch (List.length ([1, 0, 0, 0] : Vec)) wFbSt.nargin) ↔
          List.length ([1, 0, 0, 0] : Vec) ≠ wFbSt.nargin) ∧
        (List.length ([1, 0, 0, 0] : Vec) = wFbSt.nargin → ∃ v,
          applyOp wHeapFb 1 0 [1, 0, 0, 0] = .ok v ∧ v.length = wFbSt.nargout)))) :=
  ⟨rfl, rfl,
    C6_fallback_shape_check 0 wHeapFb wMat23F [] 0 wFbSt wMat23F [1, 0, 0, 0]
      rfl rfl⟩

theorem applyStrat_squaredMul (h : Heap) (recur : Nat → Vec → Except PyErr Vec)
    (ni no aId atId : Nat) (x : Vec) (hT : transposeOf h aId = some atId) :
    applyStrat h recur ni no (.squaredMul aId) x =
      match recur aId x with
      | .error e => .error e
      | .ok y => recur atId y := by
  rw [applyStrat, hT]

theorem applyStrat_squaredRmul (h : Heap) (recur : Nat → Vec → Except PyErr Vec)
    (ni no aId atId : Nat) (x : Vec) (hT : transposeOf h aId = some atId) :
    applyStrat h recur ni no (.squaredRmul aId) x =
      match recur atId x with
      | .error e => .error e
      | .ok y => recur aId y := by
  rw [applyStrat, hT]

theorem applyStratC_squaredMul (h : Heap)
    (recur : Nat → Vec → Except PyErr (Vec × Nat))
    (ni no aId atId : Nat) (x : Vec) (hT : transposeOf h aId = some atId) :
    applyStratC h recur ni no (.squaredMul aId) x =
      match recur aId x with
      | .error e => .error e
      | .ok (y, c1) =>
        match recur atId y with
        | .error e => .error e
        | .ok (z, c2) => .ok (z, c1 + c2) := by
  rw [applyStratC, hT]

theorem applyStratC_squaredRmul (h : Heap)
    (recur : Nat → Vec → Except PyErr (Vec × Nat))
    (ni no aId atId : Nat) (x : Vec) (hT : transposeOf h aId = some atId) :
    applyStratC h recur ni no (.squaredRmul aId) x =
      match recur atId x with
      | .error e => .error e
      | .ok (y, c1) =>
        match recur aId y with
        | .error e => .error e
        | .ok (z, c2) => .ok (z, c1 + c2) := by
  rw [applyStratC, hT]

theorem applyOpC_leaf_count (h : Heap) (fuel j : Nat) (y : Vec)
    (s2 : OpState) (hs2 : h.look j = some s2)
    (hleaf : s2.mul.isLeaf = true) (v : Vec) (c : Nat)
    (heq : applyOpC h fuel j y = .ok (v, c)) : c = 1 := by
  cases fuel with
  | zero =>
    rw [applyOpC] at heq
    exact Except.noConfusion heq
  | succ fuel =>
    rw [applyOpC] at heq
    rw [hs2] at heq
    have heq2 : applyStratC h (applyOpC h fuel) s2.nargin s2.nargout s2.mul y =
        .ok (v, c) := heq
    cases hm2 : s2.mul with
    | notImplemented => rw [hm2] at hleaf; simp [MulStrat.isLeaf] at hleaf
    | callback f =>
      rw [hm2, applyStratC] at heq2
      simp only [Except.ok.injEq, Prod.mk.injEq] at heq2
      exact heq2.2.symm
    | fallbackMul A =>
      rw [hm2, applyStratC] at heq2
      split at heq2
      · simp only [Except.ok.injEq, Prod.mk.injEq] at heq2
        exact heq2.2.symm
      · exact Except.noConfusion heq2
    | fallbackRmul A =>
      rw [hm2, applyStratC] at heq2
      split at heq2
      · simp only [Except.ok.injEq, Prod.mk.injEq] at heq2
        exact heq2.2.symm
      · exact Except.noConfusion heq2
    | squaredMul aId => rw [hm2] at hleaf; simp [MulStrat.isLeaf] at hleaf
    | squaredRmul aId => rw [hm2] at hleaf; simp [MulStrat.isLeaf] at hleaf

/-- C4.  A `SquaredLinearOperator` with Forward strategy applies as
`A.T * (A * x)` and with Transposed strategy as `A * (A.T * x)` — the
application is exactly the composition of two operator applications
through the heap and never a product matrix (the squared strategy stores
only the index of `A`); the instrumented semantics projects onto the
plain one, and when `A` and `A.T` are leaf operators a successful
application performs exactly two leaf applications. -/
theorem C4_squared_apply_composition (fuel : Nat) (h : Heap)
    (sId aId atId : Nat) (s : OpState) (x : Vec)
    (hs : h.look sId = some s) (hT : transposeOf h aId = some atId) :
    (s.mul = .squaredMul aId →
      applyOp h (fuel + 1) sId x =
        (applyOp h fuel aId x).bind (applyOp h fuel atId)) ∧
    (s.mul = .squaredRmul aId →
      applyOp h (fuel + 1) sId x =
        (applyOp h fuel atId x).bind (applyOp h fuel aId)) ∧
    (∀ fuel2 j y, (applyOpC h fuel2 j y).map Prod.fst = applyOp h fuel2 j y) ∧
    ((s.mul = .squaredMul aId ∨ s.mul = .squaredRmul aId) →
      ∀ a at2, h.look aId = some a → a.mul.isLeaf = true →
        h.look atId = some at2 → at2.mul.isLeaf = true →
        ∀ v c, applyOpC h (fuel + 1) sId x = .ok (v, c) → c = 2) := by
  refine ⟨fun hm => ?_, fun hm => ?_, applyOpC_fst h, fun hm => ?_⟩
  · rw [applyOp]
    rw [hs]
    show applyStrat h (applyOp h fuel) s.nargin s.nargout s.mul x =
      (applyOp h fuel aId x).bind (applyOp h fuel atId)
    rw [hm, applyStrat_squaredMul h _ _ _ _ _ _ hT]
    cases applyOp h fuel aId x <;> rfl
  · rw [applyOp]
    rw [hs]
    show applyStrat h (applyOp h fuel) s.nargin s.nargout s.mul x =
      (applyOp h fuel atId x).bind (applyOp h fuel aId)
    rw [hm, applyStrat_squaredRmul h _ _ _ _ _ _ hT]
    cases applyOp h fuel atId x <;> rfl
  · intro a at2 ha hla hat hlat v c heq
    rcases hm with hm | hm
    · cases h1 : applyOpC h fuel aId x with
      | error e =>
        have hE : applyOpC h (fuel + 1) sId x = .error e := by
          rw [applyOpC, hs]
          show applyStratC h (applyOpC h fuel) s.nargin s.nargout s.mul x = _
          rw [hm, applyStratC_squaredMul h _ _ _ _ _ _ hT, h1]
        rw [hE] at heq
        exact Except.noConfusion heq
      | ok yc =>
        obtain ⟨y, c1⟩ := yc
        cases h2 : applyOpC h fuel atId y with
        | error e =>
          have hE : applyOpC h (fuel + 1) sId x = .error e := by
            rw [applyOpC, hs]
            show applyStratC h (applyOpC h fuel) s.nargin s.nargout s.mul x = _
            rw [hm, applyStratC_squaredMul h _ _ _ _ _ _ hT, h1]
            show (match applyOpC h fuel atId y with
                  | .error e2 => (.error e2 : Except PyErr (Vec × Nat))
                  | .ok (z, c2) => .ok (z, c1 + c2)) = _
            rw [h2]
          rw [hE] at heq
          exact Except.noConfusion heq
        | ok zc =>
          obtain ⟨z, c2⟩ := zc
          have hO : applyOpC h (fuel + 1) sId x = .ok (z, c1 + c2) := by
            rw [applyOpC, hs]
            show applyStratC h (applyOpC h fuel) s.nargin s.nargout s.mul x = _
            rw [hm, applyStratC_squaredMul h _ _ _ _ _ _ hT, h1]
            show (match applyOpC h fuel atId y with
                  | .error e2 => (.error e2 : Except PyErr (Vec × Nat))
                  | .ok (z, c2) => .ok (z, c1 + c2)) = _
            rw [h2]
          rw [hO] at heq
          simp only [Except.ok.injEq, Prod.mk.injEq] at heq
          rw [← heq.2, applyOpC_leaf_count h fuel aId x a ha hla y c1 h1,
            applyOpC_leaf_count h fuel atId y at2 hat hlat z c2 h2]
    · cases h1 : applyOpC h fuel atId x with
      | error e =>
        have hE : applyOpC h (fuel + 1) sId x = .error e := by
          rw [applyOpC, hs]
          show applyStratC h (applyOpC h fuel) s.nargin s.nargout s.mul x = _
          rw [hm, applyStratC_squaredRmul h _ _ _ _ _ _ hT, h1]
        rw [hE] at heq
        exact Except.noConfusion heq
      | ok yc =>
        obtain ⟨y, c1⟩ := yc
        cases h2 : applyOpC h fuel aId y with
        | error e =>
          have hE : applyOpC h (fuel + 1) sId x = .error e := by
            rw [applyOpC, hs]
            show applyStratC h (applyOpC h fuel) s.nargin s.nargout s.mul x = _
            rw [hm, applyStratC_squaredRmul h _ _ _ _ _ _ hT, h1]
            show (match applyOpC h fuel aId y with
                  | .error e2 => (.error e2 : Except PyErr (Vec × Nat))
                  | .ok (z, c2) => .ok (z, c1 + c2)) = _
            rw [h2]
          rw [hE] at heq
          exact Except.noConfusion heq
        | ok zc =>
          obtain ⟨z, c2⟩ := zc
          have hO : applyOpC h (fuel + 1) sId x = .ok (z, c1 + c2) := by
            rw [applyOpC, hs]
            show applyStratC h (applyOpC h fuel) s.nargin s.nargout s.mul x = _
            rw [hm, applyStratC_squaredRmul h _ _ _ _ _ _ hT, h1]
            show (match applyOpC h fuel aId y with
                  | .error e2 => (.error e2 : Except PyErr (Vec × Nat))
                  | .ok (z, c2) => .ok (z, c1 + c2)) = _
            rw [h2]
          rw [hO] at heq
          simp only [Except.ok.injEq, Prod.mk.injEq] at heq
          rw [← heq.2, applyOpC_leaf_count h fuel atId x at2 hat hlat y c1 h1,
            applyOpC_leaf_count h fuel aId y a ha hla z c2 h2]

/-- Witness for C4 on the concrete heap `wHeap` (`A` at 0, `A.T` at 1,
the Forward squared operator at 2) and input `[1, 0, 0]`. -/
theorem C4_witness :
    wHeap.look 2 = some wSqSt ∧ transposeOf wHeap 0 = some 1 ∧
    ((wSqSt.mul = .squaredMul 0 →
       applyOp wHeap 3 2 [1, 0, 0] =
         (applyOp wHeap 2 0 [1, 0, 0]).bind (applyOp wHeap 2 1)) ∧
     (wSqSt.mul = .squaredRmul 0 →
       applyOp wHeap 3 2 [1, 0, 0] =
         (applyOp wHeap 2 1 [1, 0, 0]).bind (applyOp wHeap 2 0)) ∧
     (∀ fuel2 j y, (applyOpC wHeap fuel2 j y).map Prod.fst =
        applyOp wHeap fuel2 j y) ∧
     ((wSqSt.mul = .squaredMul 0 ∨ wSqSt.mul = .squaredRmul 0) →
       ∀ a at2, wHeap.look 0 = some a → a.mul.isLeaf = true →
         wHeap.look 1 = some at2 → at2.mul.isLeaf = true →
         ∀ v c, applyOpC wHeap 3 2 [1, 0, 0] = .ok (v, c) → c = 2)) :=
  ⟨rfl, rfl, C4_squared_apply_composition 2 wHeap 2 0 1 wSqSt [1, 0, 0] rfl rfl⟩
